import Mathlib

/-!
Verification of the yqjk alert-detection and lifecycle engine.

The definitions below are a shallow embedding of the Python sources:
`keyword_engine.py` (pattern matching, keyword extraction, time-window
tallying) and `alert_system.py` (the alert lifecycle: create,
update-in-place, resolve, reactivate).  Strings are Lean `String`s,
timestamps are naturals (an abstract clock, one unit per tick), the
MongoDB `alerts` collection is a list of alert records in insertion
order (`find_one`/`update_one` act on the first record matching the
queried id), and the in-memory `active_alerts` dict is a list of
records keyed by id.
-/

namespace Yqjk

/-! ### Wildcard / substring matching

`keyword_engine._match_keyword_pattern` translates a pattern containing
`*` or `?` to a regular expression (`*` becomes `.*`, `?` becomes `.`)
and runs `re.search` with `re.IGNORECASE`; otherwise it tests lowercase
substring containment.  `matchHere pat s` is the anchored semantics of
the translated regex at the head of `s` (the match may end before `s`
does, as `re.match`/`re.search` only require a prefix of the remaining
text); `searchMatch` tries every start position, which is `re.search`.
Pattern characters other than `*` and `?` are treated as literals,
matched case-insensitively; this mirrors the translated regex on every
pattern free of further regex metacharacters, which is the shape the
rules use. -/

def matchHere : List Char → List Char → Bool
  | [], _ => true
  | c :: p, s =>
    if c = '*' then
      matchHere p s ||
        (match s with
         | [] => false
         | _ :: s' => matchHere (c :: p) s')
    else
      match s with
      | [] => false
      | d :: s' => (if c = '?' then true else c.toLower == d.toLower) && matchHere p s'
termination_by p s => (s.length, p.length)

/-- Search semantics of re.search: try the anchored match at every suffix. -/
def searchMatch (p : List Char) : List Char → Bool
  | [] => matchHere p []
  | x :: s' => matchHere p (x :: s') || searchMatch p s'

/-- Test that `needle` occurs at the head of `hay`, as in Python str.startswith. -/
def prefixMatch : List Char → List Char → Bool
  | [], _ => true
  | _ :: _, [] => false
  | c :: n, d :: h => c == d && prefixMatch n h

/-- Substring test, the Python expression `needle in hay`. -/
def containsSub : List Char → List Char → Bool
  | [], needle => prefixMatch needle []
  | d :: h, needle => prefixMatch needle (d :: h) || containsSub h needle

/-- Python `str.lower()` (character-wise). -/
def lowerL (s : List Char) : List Char := s.map Char.toLower

/-- Embedding of KeywordAnalysisEngine._match_keyword_pattern (keyword_engine.py 353-361). -/
def match_keyword_pattern (text pattern : String) : Bool :=
  if pattern.data.contains '*' || pattern.data.contains '?' then
    searchMatch pattern.data text.data
  else
    containsSub (lowerL text.data) (lowerL pattern.data)

/-- Embedding of AlertSystem._match_keyword (alert_system.py 386-398).  Wildcard
targets go through `re.match`, i.e. the anchored matcher; plain targets
use lowercase substring containment. -/
def match_keyword (keyword : String) (target_keywords : List String) : Bool :=
  target_keywords.any fun target =>
    if target.data.contains '*' || target.data.contains '?' then
      matchHere target.data keyword.data
    else
      containsSub (lowerL keyword.data) (lowerL target.data)

/-! ### Keyword extraction (`KeywordAnalysisEngine._extract_keywords`, keyword_engine.py 330-351)

The Python code cleans the text with
re.sub, mapping each character outside the class of CJK ideographs,
word characters and whitespace to a space (one character for one
character), then collects with re.findall the greedy matches of the
CJK class repeated 2 to 4 times and of the Latin-letter class repeated
3 or more times, filters stop words and words
shorter than 2 characters, and counts with `collections.Counter`.

`re.findall` scans left to right; at each position the greedy quantifier
takes as many characters as allowed, and scanning resumes after each
match.  `findallCJK`/`findallLatin` implement exactly that scan.  `\w`
is embedded as ASCII alphanumerics plus underscore (the CJK range is
covered by the first alternative of the character class; the system
only feeds CJK and ASCII text through this cleaner). -/

def isCJK (c : Char) : Bool := 0x4e00 ≤ c.toNat && c.toNat ≤ 0x9fff

def isLatinLetter (c : Char) : Bool :=
  ('A' ≤ c && c ≤ 'Z') || ('a' ≤ c && c ≤ 'z')

def isWordChar (c : Char) : Bool := c.isAlphanum || c = '_'

/-- The cleaning step: re.sub replaces every character outside the class CJK, word, whitespace by a space. -/
def cleanText (s : List Char) : List Char :=
  s.map fun c => if isCJK c || isWordChar c || c.isWhitespace then c else ' '

/-- Up to `n` leading characters of the current CJK run. -/
def takeCJKUpTo : Nat → List Char → List Char
  | 0, _ => []
  | _ + 1, [] => []
  | n + 1, c :: s => if isCJK c then c :: takeCJKUpTo n s else []

/-- The findall scan for the CJK class repeated 2 to 4 times: a match needs
at least two CJK characters and greedily takes up to four, after which
scanning resumes; a lone CJK character yields no match and the scan
advances one position.  The recursion is driven by a fuel argument
(each step consumes at least one character, so `l.length` fuel
suffices; `findallCJK` instantiates it that way). -/
def findallCJKGo : Nat → List Char → List (List Char)
  | 0, _ => []
  | _ + 1, [] => []
  | fuel + 1, c :: s =>
    if isCJK c then
      if (takeCJKUpTo 3 s).isEmpty then findallCJKGo fuel s
      else (c :: takeCJKUpTo 3 s) :: findallCJKGo fuel (s.drop (takeCJKUpTo 3 s).length)
    else findallCJKGo fuel s

def findallCJK (l : List Char) : List (List Char) := findallCJKGo l.length l

/-- The findall scan for the Latin-letter class repeated 3 or more
times: the greedy unbounded
quantifier consumes a maximal Latin-letter run; runs shorter than three
characters produce no match at any of their positions (fuel-driven
like `findallCJKGo`). -/
def findallLatinGo : Nat → List Char → List (List Char)
  | 0, _ => []
  | _ + 1, [] => []
  | fuel + 1, c :: s =>
    if isLatinLetter c then
      if 2 ≤ (s.takeWhile isLatinLetter).length then
        (c :: s.takeWhile isLatinLetter) :: findallLatinGo fuel (s.dropWhile isLatinLetter)
      else findallLatinGo fuel (s.dropWhile isLatinLetter)
    else findallLatinGo fuel s

def findallLatin (l : List Char) : List (List Char) := findallLatinGo l.length l

/-- The stop-word lexicon (`_load_stop_words`, keyword_engine.py 60-80). -/
def stop_words : List String :=
  [ "的", "了", "在", "是", "我", "有", "和", "就", "不", "人", "都", "一", "一个",
    "上", "也", "很", "到", "说", "要", "去", "你", "会", "着", "没有", "看", "好",
    "自己", "这", "那", "什么", "可以", "这个", "时候", "现在", "知道", "来", "用",
    "过", "想", "应该", "还", "这样", "最", "大", "为", "以", "如果", "没", "多",
    "然后", "出", "比", "他", "两", "她", "其", "被", "此", "更", "加", "将", "已",
    "把", "从", "但", "与", "及", "对", "由", "等", "所", "而", "或",
    "今天", "昨天", "明天", "今年", "去年", "明年", "今日", "昨日", "明日",
    "几个", "一些", "很多", "不少", "大量", "少量", "部分", "全部", "所有",
    "因为", "所以", "虽然", "但是", "如果", "那么", "这么", "怎么", "为什么",
    "怎样", "哪里", "什么时候", "谁", "哪个", "多少", "怎么样", "可能", "应该",
    "记者", "报道", "消息", "新闻", "据悉", "了解", "表示", "认为", "指出", "强调",
    "发现", "显示", "证实", "透露", "宣布", "公布", "发布", "介绍", "解释", "说明" ]

/-- The candidate filter: `len(word) >= 2 and word not in stop_words and
word.strip()` — the last conjunct is the truthiness of the stripped
word, i.e. the word has at least one non-whitespace character. -/
def keywordKeep (w : String) : Bool :=
  2 ≤ w.length && !(stop_words.contains w) && w.data.any (fun c => !c.isWhitespace)

/-- The filtered candidate list produced by `_extract_keywords`. -/
def extractKeywordList (text : String) : List String :=
  let cleaned := cleanText text.data
  ((findallCJK cleaned ++ findallLatin cleaned).map (fun l => String.mk l)).filter keywordKeep

/-- The counter view of _extract_keywords: occurrence count per candidate. -/
def extract_keywords (text : String) (w : String) : Nat :=
  (extractKeywordList text).count w

/-! ### Alert keyword tallying
(`KeywordAnalysisEngine.extract_alert_keywords`, keyword_engine.py 251-328)

A news item is kept by the time filter when it has no parseable
`created_at` (both the missing-key and the parse-failure paths of the
Python code keep the item) or when its timestamp is at least
`now - time_window` minutes; the code places no upper bound on the
timestamp.  Each kept item whose lowercased `title + " " + content`
matches a target pattern contributes one to the count of that pattern. -/

structure NewsDoc where
  title : String
  content : String
  /-- `none` models an item whose `created_at` is missing or fails to
  parse; both are kept by the filter. -/
  created_at : Option Int
deriving DecidableEq, Repr

/-- The per-item time filter of `extract_alert_keywords` (lines 276-290). -/
def keepInWindow (now : Int) (time_window : Int) (d : NewsDoc) : Bool :=
  match d.created_at with
  | none => true
  | some t => now - time_window ≤ t

/-- The lowercased concatenation of title, a space, and content (line 299). -/
def docText (d : NewsDoc) : String :=
  String.mk (lowerL (d.title ++ " " ++ d.content).data)

/-- Count for one target pattern: the loop of lines 296-303 increments
`keyword_counts[kw]` once per filtered item whose text matches. -/
def alertKeywordCount (now time_window : Int) (data : List NewsDoc) (kw : String) : Nat :=
  ((data.filter (keepInWindow now time_window)).filter
      (fun d => match_keyword_pattern (docText d) kw)).length

/-! ### The alert lifecycle (`alert_system.py`)

`AlertStatus` is the status enum (line 30); the `data` dict a keyword
alert carries is `AlertData` (`created_at`/`last_updated` are absent on
some records, hence `Option`).  `AlertRule` keeps the fields
`_check_keyword_rule` reads: `conditions.get("keywords", [])`,
`conditions.get("threshold", 0)` and `conditions.get("time_window", 60)`
become the `keywords`/`threshold`/`time_window` fields, with the `get`
defaults applied at construction.  `alert_type` and `level` are carried
as their persisted string values. -/

inductive AlertStatus where
  | active
  | resolved
  | suppressed
deriving DecidableEq, Repr

structure AlertData where
  keyword : String
  count : Nat
  threshold : Nat
  time_window : Nat
  reactivation_count : Nat
  created_at : Option Nat
  last_updated : Option Nat
deriving DecidableEq, Repr

structure Alert where
  id : String
  rule_id : String
  rule_name : String
  alert_type : String
  level : String
  status : AlertStatus
  title : String
  message : String
  data : AlertData
  triggered_at : Nat
  resolved_at : Option Nat
deriving DecidableEq, Repr

structure AlertRule where
  id : String
  name : String
  alert_type : String
  level : String
  enabled : Bool
  keywords : List String
  threshold : Nat
  time_window : Nat
deriving DecidableEq, Repr

/-- System state: the persisted `alerts` collection (in insertion
order) and the in-memory `active_alerts` dict (keyed by alert id). -/
structure SysState where
  alerts : List Alert
  active_alerts : List Alert
deriving DecidableEq, Repr

/-- The query find_one on the id field of the alerts collection. -/
def findOne (l : List Alert) (i : String) : Option Alert :=
  l.find? fun a => a.id == i

/-- The query update_one on the id field: rewrite the first record
with the matching id, leave everything else untouched. -/
def updateFirst (i : String) (f : Alert → Alert) : List Alert → List Alert
  | [] => []
  | a :: l => if a.id == i then f a :: l else a :: updateFirst i f l

/-- Python dict assignment `d[a.id] = a`: replace in place if the key
exists, append otherwise. -/
def dictInsert (l : List Alert) (a : Alert) : List Alert :=
  if l.any (fun b => b.id == a.id) then updateFirst a.id (fun _ => a) l
  else l ++ [a]

/-- Removal of a key from the `active_alerts` dict. -/
def dictErase (l : List Alert) (i : String) : List Alert :=
  l.filter fun a => !(a.id == i)

/-- Message of a freshly created alert (line 289). -/
def createMessage (keyword : String) (count threshold : Nat) : String :=
  "关键词 \x27" ++ keyword ++ "\x27 出现频次 " ++ toString count ++
    " 次，超过阈值 " ++ toString threshold

/-- Message written by `_update_existing_alert` (line 317). -/
def updateMessage (count threshold : Nat) : String :=
  "关键词预警更新: 出现频次 " ++ toString count ++ " 次，超过阈值 " ++ toString threshold

/-- Message written by `_reactivate_alert` (line 346). -/
def reactivateMessage (count threshold : Nat) : String :=
  "关键词预警重新触发: 出现频次 " ++ toString count ++ " 次，超过阈值 " ++ toString threshold

/-- Embedding of AlertSystem.resolve_alert (lines 218-237): set the
status of the record to `resolved` and `resolved_at = now`, drop the id from the
active cache, and return `True` (the code returns `True` whether or not
a record with the id exists; only a store failure returns `False`). -/
def resolve_alert (now : Nat) (alert_id : String) (st : SysState) : SysState × Bool :=
  ({ alerts :=
      updateFirst alert_id
        (fun a => { a with status := .resolved, resolved_at := some now }) st.alerts,
     active_alerts := dictErase st.active_alerts alert_id }, true)

/-- Embedding of AlertSystem.trigger_alert (lines 200-216): insert the record and
cache it as active. -/
def trigger_alert (alert : Alert) (st : SysState) : SysState :=
  { alerts := st.alerts ++ [alert],
    active_alerts := dictInsert st.active_alerts alert }

/-- Embedding of AlertSystem._update_existing_alert (lines 312-338).  The store
update rewrites `message`, `data.count`, `data.threshold`,
`data.time_window`, `data.last_updated` and `triggered_at`; the cache
update (lines 331-335) rewrites only `message`, `data.count`,
`data.last_updated` and `triggered_at`. -/
def update_existing_alert (now : Nat) (alert_id : String)
    (count threshold time_window : Nat) (st : SysState) : SysState :=
  { alerts :=
      updateFirst alert_id
        (fun a =>
          { a with
            message := updateMessage count threshold,
            triggered_at := now,
            data :=
              { a.data with
                count := count, threshold := threshold,
                time_window := time_window, last_updated := some now } }) st.alerts,
    active_alerts :=
      updateFirst alert_id
        (fun a =>
          { a with
            message := updateMessage count threshold,
            triggered_at := now,
            data := { a.data with count := count, last_updated := some now } })
        st.active_alerts }

/-- Embedding of AlertSystem._reactivate_alert (lines 340-384).  The store update
sets `status = "active"`, refreshes the message, counters and times,
clears `resolved_at` and `$inc`-rements `data.reactivation_count` by 1;
the record is then re-read and placed into the active cache with status
forced to `ACTIVE` and `resolved_at = None` (lines 366-381). -/
def reactivate_alert (now : Nat) (alert_id : String)
    (count threshold time_window : Nat) (st : SysState) : SysState :=
  let alerts :=
    updateFirst alert_id
      (fun a =>
        { a with
          status := .active,
          message := reactivateMessage count threshold,
          triggered_at := now,
          resolved_at := none,
          data :=
            { a.data with
              count := count, threshold := threshold, time_window := time_window,
              last_updated := some now,
              reactivation_count := a.data.reactivation_count + 1 } }) st.alerts
  { alerts := alerts,
    active_alerts :=
      match findOne alerts alert_id with
      | some doc =>
        dictInsert st.active_alerts { doc with status := .active, resolved_at := none }
      | none => st.active_alerts }

/-- The alert record built at lines 281-299 of `_check_keyword_rule`. -/
def newKeywordAlert (now : Nat) (rule : AlertRule) (keyword : String) (count : Nat) : Alert :=
  { id := rule.id ++ "_" ++ keyword,
    rule_id := rule.id,
    rule_name := rule.name,
    alert_type := rule.alert_type,
    level := rule.level,
    status := .active,
    title := "关键词预警: " ++ keyword,
    message := createMessage keyword count rule.threshold,
    data :=
      { keyword := keyword, count := count, threshold := rule.threshold,
        time_window := rule.time_window, reactivation_count := 0,
        created_at := some now, last_updated := none },
    triggered_at := now,
    resolved_at := none }

/-- The body of `_check_keyword_rule` (lines 258-302) for one keyword
entry, a dict carrying the word and its count: if the word matches a target
pattern and the count reaches the threshold, look the deterministic id
up in the store and create / update / reactivate accordingly; in every
other case (no match, count below threshold, or an existing record in
the `suppressed` status that none of the branches handle) the state is
untouched. -/
def checkKeywordPair (now : Nat) (rule : AlertRule) (keyword : String) (count : Nat)
    (st : SysState) : SysState :=
  if match_keyword keyword rule.keywords then
    if rule.threshold ≤ count then
      match findOne st.alerts (rule.id ++ "_" ++ keyword) with
      | some existing =>
        if existing.status = .active then
          update_existing_alert now (rule.id ++ "_" ++ keyword) count
            rule.threshold rule.time_window st
        else if existing.status = .resolved then
          reactivate_alert now (rule.id ++ "_" ++ keyword) count
            rule.threshold rule.time_window st
        else st
      | none => trigger_alert (newKeywordAlert now rule keyword count) st
    else st
  else st

/-- Iteration of _check_keyword_rule over its whole keyword list. -/
def check_keyword_rule (now : Nat) (rule : AlertRule)
    (keywords : List (String × Nat)) (st : SysState) : SysState :=
  keywords.foldl (fun st kd => checkKeywordPair now rule kd.1 kd.2 st) st

/-- States reachable from `s` through the operations of the engine: keyword
evaluation steps (any rule, keyword, tally and clock value) and
explicit `resolve_alert` actions. -/
inductive Reach : SysState → SysState → Prop where
  | refl (s : SysState) : Reach s s
  | check (now : Nat) (rule : AlertRule) (keyword : String) (count : Nat)
      {s t : SysState} :
      Reach s t → Reach s (checkKeywordPair now rule keyword count t)
  | resolve (now : Nat) (alert_id : String) {s t : SysState} :
      Reach s t → Reach s (resolve_alert now alert_id t).1

/-- Embedding of AlertSystem.get_alert_by_id (alert_system.py 431-454): find_one
on the id, `None` when absent (the dict projection and the isoformat
rendering of the timestamps are elided; the record itself is
returned). -/
def get_alert_by_id (st : SysState) (alert_id : String) : Option Alert :=
  findOne st.alerts alert_id

/-! ### Spec-level reformulation of the CJK scan (for claim C8)

The spec describes the extractor on each contiguous CJK run.  `cjkRuns`
splits a string into its maximal CJK runs; `chunkGreedy` chops one run
into the greedy non-overlapping chunks the regex scan produces: four
characters at a time, a shorter trailing chunk kept when it still has
at least two characters, and a trailing single character dropped. -/

def cjkRunsGo : Nat → List Char → List (List Char)
  | 0, _ => []
  | _ + 1, [] => []
  | fuel + 1, c :: s =>
    if isCJK c then (c :: s.takeWhile isCJK) :: cjkRunsGo fuel (s.dropWhile isCJK)
    else cjkRunsGo fuel s

def cjkRuns (l : List Char) : List (List Char) := cjkRunsGo l.length l

def chunkGreedyGo : Nat → List Char → List (List Char)
  | 0, _ => []
  | fuel + 1, r => if 2 ≤ r.length then r.take 4 :: chunkGreedyGo fuel (r.drop 4) else []

def chunkGreedy (r : List Char) : List (List Char) := chunkGreedyGo r.length r

/-- The amended description of `_extract_keywords`: per-run greedy
chunks instead of the claimed overlapping n-grams, Latin runs of length
at least 3, the same stop-word / length filter and counting. -/
def extractKeywordListAmended (text : String) : List String :=
  let cleaned := cleanText text.data
  (((cjkRuns cleaned).flatMap chunkGreedy ++ findallLatin cleaned).map
      (fun l => String.mk l)).filter keywordKeep

def extractKeywordsAmended (text : String) (w : String) : Nat :=
  (extractKeywordListAmended text).count w

/-! ### Concrete sample data used by the witnesses -/

def wRule : AlertRule :=
  { id := "r1", name := "规则一", alert_type := "keyword", level := "high",
    enabled := true, keywords := ["数据"], threshold := 3, time_window := 60 }

def wResolved : Alert :=
  { id := "r1_数据", rule_id := "r1", rule_name := "规则一",
    alert_type := "keyword", level := "high", status := .resolved,
    title := "关键词预警: 数据", message := "m",
    data :=
      { keyword := "数据", count := 5, threshold := 3, time_window := 60,
        reactivation_count := 0, created_at := some 1, last_updated := some 2 },
    triggered_at := 1, resolved_at := some 2 }

def wActive : Alert :=
  { id := "r1_数据", rule_id := "r1", rule_name := "规则一",
    alert_type := "keyword", level := "high", status := .active,
    title := "关键词预警: 数据", message := "m",
    data :=
      { keyword := "数据", count := 5, threshold := 3, time_window := 60,
        reactivation_count := 2, created_at := some 1, last_updated := some 2 },
    triggered_at := 1, resolved_at := none }

def wDocFuture : NewsDoc :=
  { title := "数据泄露警报", content := "", created_at := some 5000 }

/-- The resolved invariant of claim C3: a record carries a
`resolved_at` timestamp exactly when its status is `resolved`. -/
def resolvedInv (st : SysState) : Prop :=
  ∀ a ∈ st.alerts, (a.resolved_at ≠ none ↔ a.status = .resolved)

/-! ### Store lemmas -/

/-- The ids stored in the alerts collection, in order. -/
def alertIds (l : List Alert) : List String := l.map Alert.id

theorem updateFirst_map_id (i : String) (f : Alert → Alert)
    (hf : ∀ a, (f a).id = a.id) (l : List Alert) :
    alertIds (updateFirst i f l) = alertIds l := by
  induction l with
  | nil => rfl
  | cons a l ih =>
    simp only [updateFirst]
    split
    · simp [alertIds, hf]
    · simpa [alertIds] using ih

theorem findOne_updateFirst (i j : String) (f : Alert → Alert)
    (hf : ∀ a, (f a).id = a.id) (l : List Alert) :
    findOne (updateFirst i f l) j =
      if j = i then (findOne l i).map f else findOne l j := by
  induction l with
  | nil => simp [updateFirst, findOne]
  | cons a l ih =>
    by_cases ha : a.id = i
    · simp only [updateFirst, ha, beq_self_eq_true, if_true]
      by_cases hj : j = i
      · subst hj
        simp [findOne, List.find?_cons, hf, ha]
      · have : (f a).id = a.id := hf a
        simp [findOne, List.find?_cons, this, ha, hj, Ne.symm hj]
    · simp only [updateFirst, beq_iff_eq, ha, if_false]
      by_cases haj : a.id = j
      · have hj : ¬ j = i := fun h => ha (haj.trans h)
        simp [findOne, List.find?_cons, haj, hj]
      · simpa [findOne, List.find?_cons, haj, ha] using ih

theorem findOne_eq_none_iff (l : List Alert) (i : String) :
    findOne l i = none ↔ ∀ a ∈ l, a.id ≠ i := by
  simp [findOne, List.find?_eq_none]

theorem findOne_append (l l' : List Alert) (i : String) :
    findOne (l ++ l') i = (findOne l i).or (findOne l' i) := by
  induction l with
  | nil => simp [findOne]
  | cons a l ih =>
    by_cases ha : a.id = i
    · simp [findOne, List.find?_cons, ha]
    · have hb : (a.id == i) = false := by simp [ha]
      simpa only [findOne, List.find?_cons, List.cons_append, hb] using ih

theorem mem_updateFirst (i : String) (f : Alert → Alert) (l : List Alert)
    (a' : Alert) (h : a' ∈ updateFirst i f l) :
    a' ∈ l ∨ ∃ a ∈ l, a.id = i ∧ a' = f a := by
  induction l with
  | nil => simp only [updateFirst, List.not_mem_nil] at h
  | cons a l ih =>
    simp only [updateFirst] at h
    by_cases ha : a.id = i
    · simp only [ha, beq_self_eq_true, if_true, List.mem_cons] at h
      rcases h with h | h
      · exact Or.inr ⟨a, List.mem_cons_self a l, ha, h⟩
      · exact Or.inl (List.mem_cons_of_mem a h)
    · simp only [beq_iff_eq, ha, if_false, List.mem_cons] at h
      rcases h with h | h
      · exact Or.inl (by simp [h])
      · rcases ih h with h | ⟨b, hb, hbi, hba⟩
        · exact Or.inl (List.mem_cons_of_mem a h)
        · exact Or.inr ⟨b, List.mem_cons_of_mem a hb, hbi, hba⟩

/-- A store counts at most one record per id exactly when its id list has
no duplicates. -/
theorem countP_le_one_of_nodup (l : List Alert) (h : (alertIds l).Nodup)
    (i : String) : l.countP (fun a => a.id == i) ≤ 1 := by
  have hc : l.countP (fun a => a.id == i) = (alertIds l).count i := by
    simp [alertIds, List.count, List.countP_map, Function.comp_def, eq_comm]
  rw [hc]
  exact List.nodup_iff_count_le_one.mp h i

/-! ### Identity of alerts (C1) -/

/-- One evaluation step either leaves the stored id list unchanged
(no-op, in-place update, reactivation) or appends exactly the
deterministic id `rule.id ++ "_" ++ keyword`, and it appends only when
that id was absent. -/
theorem checkKeywordPair_ids (now : Nat) (rule : AlertRule) (keyword : String)
    (count : Nat) (st : SysState) :
    alertIds (checkKeywordPair now rule keyword count st).alerts = alertIds st.alerts ∨
      (alertIds (checkKeywordPair now rule keyword count st).alerts
          = alertIds st.alerts ++ [rule.id ++ "_" ++ keyword] ∧
        (rule.id ++ "_" ++ keyword) ∉ alertIds st.alerts) := by
  unfold checkKeywordPair
  split
  case isFalse => exact Or.inl rfl
  split
  case isFalse => exact Or.inl rfl
  rcases hfind : findOne st.alerts (rule.id ++ "_" ++ keyword) with _ | existing
  · refine Or.inr ⟨?_, ?_⟩
    · simp [trigger_alert, alertIds, newKeywordAlert]
    · intro hmem
      rw [findOne_eq_none_iff] at hfind
      rcases List.mem_map.mp hmem with ⟨a, ha, hid⟩
      exact hfind a ha hid
  · left
    by_cases hA : existing.status = .active
    · simp only [hA, if_true, update_existing_alert]
      apply updateFirst_map_id
      intro a; rfl
    by_cases hR : existing.status = .resolved
    · simp only [hA, hR, if_false, if_true, reactivate_alert]
      apply updateFirst_map_id
      intro a; rfl
    · simp only [hA, hR, if_false]

/-- Resolving never changes the stored id list. -/
theorem resolve_alert_ids (now : Nat) (alert_id : String) (st : SysState) :
    alertIds (resolve_alert now alert_id st).1.alerts = alertIds st.alerts := by
  simp only [resolve_alert]
  apply updateFirst_map_id
  intro a; rfl

/-- Duplicate-freedom of stored ids is preserved by every reachable
evolution of the system. -/
theorem reach_nodup_ids (s t : SysState) (h : (alertIds s.alerts).Nodup)
    (hr : Reach s t) : (alertIds t.alerts).Nodup := by
  induction hr with
  | refl s => exact h
  | check now rule keyword count hr ih =>
    rcases checkKeywordPair_ids now rule keyword count _ with heq | ⟨heq, hnot⟩
    · rw [heq]; exact ih h
    · rw [heq, List.nodup_append]
      refine ⟨ih h, List.nodup_singleton _, ?_⟩
      intro x hx hmem
      rw [List.mem_singleton] at hmem
      exact hnot (hmem ▸ hx)
  | resolve now alert_id hr ih =>
    rw [resolve_alert_ids]; exact ih h

/-- C1.  The alert record created or updated for a (rule, keyword) pair
carries the deterministic id `rule.id ++ "_" ++ keyword`: an evaluation
step can only ever add that one id to the store (all other transitions
keep the id list unchanged), and in every state reachable from a store
with duplicate-free ids, at most one alert record exists per id,
however many evaluation cycles and resolve actions have run. -/
theorem alert_identity_unique (s t : SysState)
    (h : (alertIds s.alerts).Nodup) (hr : Reach s t) :
    (∀ i : String, t.alerts.countP (fun a => a.id == i) ≤ 1) ∧
    (∀ (now : Nat) (rule : AlertRule) (keyword : String) (count : Nat),
      alertIds (checkKeywordPair now rule keyword count t).alerts
          = alertIds t.alerts ∨
        alertIds (checkKeywordPair now rule keyword count t).alerts
          = alertIds t.alerts ++ [rule.id ++ "_" ++ keyword]) := by
  refine ⟨fun i => countP_le_one_of_nodup _ (reach_nodup_ids s t h hr) i, ?_⟩
  intro now rule keyword count
  rcases checkKeywordPair_ids now rule keyword count t with heq | ⟨heq, _⟩
  · exact Or.inl heq
  · exact Or.inr heq

/-- Witness for C1 at a concrete reachable state. -/
theorem alert_identity_unique_witness :
    (⟨[], []⟩ : SysState).alerts.countP (fun a => a.id == "r1_x") ≤ 1 :=
  (alert_identity_unique ⟨[], []⟩ ⟨[], []⟩ (by simp [alertIds]) (Reach.refl _)).1 ("r1_x")

/-! ### Reactivation (C2) -/

/-- Looking the updated id up after `update_one` returns the rewritten
first match. -/
theorem findOne_updateFirst_self (j : String) (f : Alert → Alert) (l : List Alert)
    (a : Alert) (ha : findOne l j = some a) (hf : ∀ b, (f b).id = b.id) :
    findOne (updateFirst j f l) j = some (f a) := by
  rw [findOne_updateFirst j j f hf l, if_pos rfl, ha]
  rfl

/-- Looking any other id up after `update_one` is unaffected. -/
theorem findOne_updateFirst_other (j i : String) (f : Alert → Alert) (l : List Alert)
    (hne : i ≠ j) (hf : ∀ b, (f b).id = b.id) :
    findOne (updateFirst j f l) i = findOne l i := by
  rw [findOne_updateFirst j i f hf l, if_neg hne]

/-- Monotonicity transfer: if a per-record rewrite never decreases
`reactivation_count`, neither does the store update built from it. -/
theorem mono_updateFirst (j i : String) (f : Alert → Alert) (l : List Alert)
    (b b' : Alert) (hb : findOne l i = some b)
    (hb' : findOne (updateFirst j f l) i = some b')
    (hf : ∀ a, (f a).id = a.id)
    (hmono : ∀ a, a.data.reactivation_count ≤ (f a).data.reactivation_count) :
    b.data.reactivation_count ≤ b'.data.reactivation_count := by
  rw [findOne_updateFirst j i f hf l] at hb'
  by_cases hi : i = j
  · rw [if_pos hi] at hb'
    rw [hi] at hb
    rw [hb] at hb'
    cases hb'
    exact hmono b
  · rw [if_neg hi, hb] at hb'
    cases hb'
    exact Nat.le_refl _

/-- Equality transfer: a per-record rewrite that keeps
`reactivation_count` keeps it across the store update. -/
theorem rc_eq_updateFirst (j i : String) (f : Alert → Alert) (l : List Alert)
    (b b' : Alert) (hb : findOne l i = some b)
    (hb' : findOne (updateFirst j f l) i = some b')
    (hf : ∀ a, (f a).id = a.id)
    (heq : ∀ a, (f a).data.reactivation_count = a.data.reactivation_count) :
    b'.data.reactivation_count = b.data.reactivation_count := by
  rw [findOne_updateFirst j i f hf l] at hb'
  by_cases hi : i = j
  · rw [if_pos hi] at hb'
    rw [hi] at hb
    rw [hb] at hb'
    cases hb'
    exact heq b
  · rw [if_neg hi, hb] at hb'
    cases hb'
    rfl

/-- The store effect of the resolved-to-active branch: the record is
switched to `active`, `resolved_at` is cleared and
`data.reactivation_count` grows by exactly 1. -/
theorem checkKeywordPair_reactivates (now : Nat) (rule : AlertRule) (keyword : String)
    (count : Nat) (st : SysState) (a : Alert)
    (hfind : findOne st.alerts (rule.id ++ "_" ++ keyword) = some a)
    (hres : a.status = .resolved)
    (hmatch : match_keyword keyword rule.keywords = true)
    (hcount : rule.threshold ≤ count) :
    findOne (checkKeywordPair now rule keyword count st).alerts (rule.id ++ "_" ++ keyword)
      = some
        { a with
          status := .active,
          message := reactivateMessage count rule.threshold,
          triggered_at := now,
          resolved_at := none,
          data :=
            { a.data with
              count := count, threshold := rule.threshold,
              time_window := rule.time_window, last_updated := some now,
              reactivation_count := a.data.reactivation_count + 1 } } := by
  have hA : ¬ a.status = AlertStatus.active := by rw [hres]; intro h; cases h
  unfold checkKeywordPair
  rw [if_pos hmatch, if_pos hcount]
  simp only [hfind]
  rw [if_neg hA, if_pos hres]
  simp only [reactivate_alert]
  exact findOne_updateFirst_self _ _ _ _ hfind (fun b => rfl)

/-- One evaluation step never decreases the
`reactivation_count` of any record (it leaves it unchanged except on the
resolved-to-active branch, which adds 1). -/
theorem checkKeywordPair_reactivation_mono (now : Nat) (rule : AlertRule)
    (keyword : String) (count : Nat) (st : SysState) (i : String) (b b' : Alert)
    (hb : findOne st.alerts i = some b)
    (hb' : findOne (checkKeywordPair now rule keyword count st).alerts i = some b') :
    b.data.reactivation_count ≤ b'.data.reactivation_count := by
  unfold checkKeywordPair at hb'
  split at hb'
  case isFalse =>
    rw [hb] at hb'; cases hb'; exact Nat.le_refl _
  split at hb'
  case isFalse =>
    rw [hb] at hb'; cases hb'; exact Nat.le_refl _
  split at hb'
  next existing hfind =>
    split at hb'
    · simp only [update_existing_alert] at hb'
      exact mono_updateFirst _ _ _ _ _ _ hb hb' (fun a => rfl) (fun a => Nat.le_refl _)
    split at hb'
    · simp only [reactivate_alert] at hb'
      exact mono_updateFirst _ _ _ _ _ _ hb hb' (fun a => rfl) (fun a => Nat.le_succ _)
    · rw [hb] at hb'; cases hb'; exact Nat.le_refl _
  next hfind =>
    simp only [trigger_alert] at hb'
    rw [findOne_append, hb] at hb'
    simp only [Option.or] at hb'
    cases hb'; exact Nat.le_refl _

/-- Resolving never changes the `reactivation_count` of any record. -/
theorem resolve_alert_reactivation_eq (now : Nat) (alert_id : String)
    (st : SysState) (i : String) (b b' : Alert)
    (hb : findOne st.alerts i = some b)
    (hb' : findOne (resolve_alert now alert_id st).1.alerts i = some b') :
    b'.data.reactivation_count = b.data.reactivation_count := by
  simp only [resolve_alert] at hb'
  exact rc_eq_updateFirst _ _ _ _ _ _ hb hb' (fun a => rfl) (fun a => rfl)

/-- C2.  A renewed breach of the (rule, keyword) pair of a resolved alert
sets the record to `active`, clears `resolved_at`, and increments
`data.reactivation_count` by exactly 1; and across all transitions —
any evaluation step and any explicit resolve — `reactivation_count` is
monotonically non-decreasing. -/
theorem reactivation_increments_once (now : Nat) (rule : AlertRule) (keyword : String)
    (count : Nat) (st : SysState) (a : Alert)
    (hfind : findOne st.alerts (rule.id ++ "_" ++ keyword) = some a)
    (hres : a.status = .resolved)
    (hmatch : match_keyword keyword rule.keywords = true)
    (hcount : rule.threshold ≤ count) :
    (∃ a', findOne (checkKeywordPair now rule keyword count st).alerts
          (rule.id ++ "_" ++ keyword) = some a' ∧
        a'.status = .active ∧ a'.resolved_at = none ∧
        a'.data.reactivation_count = a.data.reactivation_count + 1) ∧
    (∀ (now' : Nat) (rule' : AlertRule) (keyword' : String) (count' : Nat)
        (st' : SysState) (i : String) (b b' : Alert),
      findOne st'.alerts i = some b →
      findOne (checkKeywordPair now' rule' keyword' count' st').alerts i = some b' →
      b.data.reactivation_count ≤ b'.data.reactivation_count) ∧
    (∀ (now' : Nat) (alert_id : String) (st' : SysState) (i : String) (b b' : Alert),
      findOne st'.alerts i = some b →
      findOne (resolve_alert now' alert_id st').1.alerts i = some b' →
      b.data.reactivation_count ≤ b'.data.reactivation_count) := by
  refine ⟨?_, checkKeywordPair_reactivation_mono, ?_⟩
  · exact ⟨_, checkKeywordPair_reactivates now rule keyword count st a hfind hres hmatch hcount,
      rfl, rfl, rfl⟩
  · intro now' alert_id st' i b b' hb hb'
    exact Nat.le_of_eq (resolve_alert_reactivation_eq now' alert_id st' i b b' hb hb').symm

/-- Witness for C2: a resolved sample alert whose pair breaches again
comes back active with `resolved_at` cleared and the reactivation count
bumped from 0 to 1. -/
theorem reactivation_increments_once_witness :
    (findOne (checkKeywordPair 9 wRule ("数据") 4 ⟨[wResolved], []⟩).alerts
        (wRule.id ++ "_" ++ "数据")).map
        (fun b => (b.status, b.resolved_at, b.data.reactivation_count))
      = some (AlertStatus.active, none, 1) := by
  obtain ⟨⟨a', ha', h1, h2, h3⟩, -, -⟩ :=
    reactivation_increments_once 9 wRule ("数据") 4 ⟨[wResolved], []⟩ wResolved
      (by decide) (by decide) (by decide) (by decide)
  rw [ha', Option.map_some', h1, h2, h3]
  rfl

/-! ### The resolved invariant (C3) -/

/-- One evaluation step preserves the resolved invariant. -/
theorem checkKeywordPair_resolvedInv (now : Nat) (rule : AlertRule) (keyword : String)
    (count : Nat) (st : SysState) (h : resolvedInv st) :
    resolvedInv (checkKeywordPair now rule keyword count st) := by
  intro a' ha'
  unfold checkKeywordPair at ha'
  split at ha'
  case isFalse => exact h a' ha'
  split at ha'
  case isFalse => exact h a' ha'
  split at ha'
  next existing hfind =>
    split at ha'
    · simp only [update_existing_alert] at ha'
      rcases mem_updateFirst _ _ _ _ ha' with hmem | ⟨b, hb, _, hba⟩
      · exact h a' hmem
      · subst hba
        simpa using h b hb
    split at ha'
    · simp only [reactivate_alert] at ha'
      rcases mem_updateFirst _ _ _ _ ha' with hmem | ⟨b, hb, _, hba⟩
      · exact h a' hmem
      · subst hba
        simp
    · exact h a' ha'
  next hfind =>
    simp only [trigger_alert, List.mem_append, List.mem_singleton] at ha'
    rcases ha' with hmem | rfl
    · exact h a' hmem
    · simp [newKeywordAlert]

/-- `resolve_alert` preserves the resolved invariant. -/
theorem resolve_alert_resolvedInv (now : Nat) (alert_id : String) (st : SysState)
    (h : resolvedInv st) : resolvedInv (resolve_alert now alert_id st).1 := by
  intro a' ha'
  simp only [resolve_alert] at ha'
  rcases mem_updateFirst _ _ _ _ ha' with hmem | ⟨b, hb, _, hba⟩
  · exact h a' hmem
  · subst hba
    simp

/-- C3.  Every alert record reachable through creation, in-place
update, explicit resolution and reactivation satisfies: `resolved_at`
is non-null iff the status is `resolved`. -/
theorem resolved_iff_resolved_at (s t : SysState) (h : resolvedInv s)
    (hr : Reach s t) : resolvedInv t := by
  induction hr with
  | refl s => exact h
  | check now rule keyword count hr ih =>
    exact checkKeywordPair_resolvedInv _ _ _ _ _ (ih h)
  | resolve now alert_id hr ih =>
    exact resolve_alert_resolvedInv _ _ _ (ih h)

/-- Witness for C3: the invariant holds after creating an alert from
the empty store, resolving it, and letting its pair breach again. -/
theorem resolved_iff_resolved_at_witness :
    resolvedInv
      (checkKeywordPair 30 wRule ("数据") 6
        (resolve_alert 20 (wRule.id ++ "_" ++ "数据")
          (checkKeywordPair 10 wRule ("数据") 5 ⟨[], []⟩)).1) :=
  resolved_iff_resolved_at ⟨[], []⟩ _ (by intro a ha; cases ha)
    (Reach.check 30 wRule ("数据") 6
      (Reach.resolve 20 (wRule.id ++ "_" ++ "数据")
        (Reach.check 10 wRule ("数据") 5 (Reach.refl _))))

/-! ### Non-auto-resolution (C4) -/

/-- After `update_one`, a looked-up record is either the old one or the
rewrite of the old one. -/
theorem findOne_updateFirst_cases (j i : String) (f : Alert → Alert) (l : List Alert)
    (b b' : Alert) (hb : findOne l i = some b)
    (hb' : findOne (updateFirst j f l) i = some b')
    (hf : ∀ a, (f a).id = a.id) :
    b' = b ∨ b' = f b := by
  rw [findOne_updateFirst j i f hf l] at hb'
  by_cases hi : i = j
  · rw [if_pos hi] at hb'
    rw [hi] at hb
    rw [hb] at hb'
    cases hb'
    exact Or.inr rfl
  · rw [if_neg hi, hb] at hb'
    cases hb'
    exact Or.inl rfl

/-- An active record stays active under one evaluation step: the
evaluation pass never performs an active-to-resolved transition. -/
theorem checkKeywordPair_keeps_active (now : Nat) (rule : AlertRule) (keyword : String)
    (count : Nat) (st : SysState) (i : String) (a a' : Alert)
    (ha : findOne st.alerts i = some a)
    (ha' : findOne (checkKeywordPair now rule keyword count st).alerts i = some a')
    (hact : a.status = .active) : a'.status = .active := by
  unfold checkKeywordPair at ha'
  split at ha'
  case isFalse => rw [ha] at ha'; cases ha'; exact hact
  split at ha'
  case isFalse => rw [ha] at ha'; cases ha'; exact hact
  split at ha'
  next existing hfind =>
    split at ha'
    · simp only [update_existing_alert] at ha'
      rcases findOne_updateFirst_cases _ _ _ _ _ _ ha ha' (fun b => rfl) with rfl | rfl
      · exact hact
      · exact hact
    split at ha'
    · simp only [reactivate_alert] at ha'
      rcases findOne_updateFirst_cases _ _ _ _ _ _ ha ha' (fun b => rfl) with rfl | rfl
      · exact hact
      · rfl
    · rw [ha] at ha'; cases ha'; exact hact
  next hfind =>
    simp only [trigger_alert] at ha'
    rw [findOne_append, ha] at ha'
    simp only [Option.or] at ha'
    cases ha'
    exact hact

/-- C4.  A (rule, keyword) pair that does not breach — no pattern match
or a tally below threshold — leaves the state untouched; an active
alert never becomes resolved through evaluation; and the explicit
`resolve_alert` action is the only active-to-resolved transition: it
stamps `resolved_at = now` on the record and removes the id from the
active cache. -/
theorem no_auto_resolution (now : Nat) (rule : AlertRule) (keyword : String)
    (count : Nat) (st : SysState) :
    (match_keyword keyword rule.keywords = false ∨ count < rule.threshold →
      checkKeywordPair now rule keyword count st = st) ∧
    (∀ (i : String) (a a' : Alert),
      findOne st.alerts i = some a →
      findOne (checkKeywordPair now rule keyword count st).alerts i = some a' →
      a.status = .active → a'.status = .active) ∧
    (∀ (alert_id : String) (a : Alert),
      findOne st.alerts alert_id = some a →
      findOne (resolve_alert now alert_id st).1.alerts alert_id
        = some { a with status := .resolved, resolved_at := some now }) ∧
    (∀ alert_id : String,
      (resolve_alert now alert_id st).1.active_alerts.all
        (fun b => !(b.id == alert_id)) = true) := by
  refine ⟨?_, ?_, ?_, ?_⟩
  · intro h
    unfold checkKeywordPair
    rcases h with h | h
    · rw [if_neg (by simp [h])]
    · by_cases hm : match_keyword keyword rule.keywords = true
      · rw [if_pos hm, if_neg (by omega)]
      · rw [if_neg hm]
  · exact fun i a a' => checkKeywordPair_keeps_active now rule keyword count st i a a'
  · intro alert_id a ha
    simp only [resolve_alert]
    exact findOne_updateFirst_self _ _ _ _ ha (fun b => rfl)
  · intro alert_id
    simp only [resolve_alert, dictErase, List.all_eq_true]
    intro b hb
    exact (List.mem_filter.mp hb).2

/-- Witness for C4: a tally below the threshold of the sample rule leaves a
state holding an active alert untouched. -/
theorem no_auto_resolution_witness :
    checkKeywordPair 9 wRule ("数据") 2 ⟨[wActive], []⟩ = ⟨[wActive], []⟩ :=
  (no_auto_resolution 9 wRule ("数据") 2 ⟨[wActive], []⟩).1 (Or.inr (by decide))

/-! ### Threshold boundary (C5) -/

/-- C5.  A tally exactly equal to the threshold triggers the
create/update/reactivate transition — afterwards the record of the pair
exists, is active, holds `data.count = threshold` and
`triggered_at = now` — while a tally of threshold − 1 leaves the state
untouched (stated for thresholds ≥ 1; tallies are naturals, so
"threshold − 1" only makes sense there). -/
theorem threshold_boundary (now : Nat) (rule : AlertRule) (keyword : String)
    (st : SysState)
    (hmatch : match_keyword keyword rule.keywords = true)
    (hsup : ∀ a, findOne st.alerts (rule.id ++ "_" ++ keyword) = some a →
      a.status ≠ .suppressed) :
    ((findOne (checkKeywordPair now rule keyword rule.threshold st).alerts
        (rule.id ++ "_" ++ keyword)).map
          (fun a' => (a'.status, a'.data.count, a'.triggered_at))
        = some (AlertStatus.active, rule.threshold, now)) ∧
    (1 ≤ rule.threshold →
      checkKeywordPair now rule keyword (rule.threshold - 1) st = st) := by
  constructor
  · unfold checkKeywordPair
    rw [if_pos hmatch, if_pos (Nat.le_refl _)]
    rcases hfind : findOne st.alerts (rule.id ++ "_" ++ keyword) with _ | existing <;>
      simp only []
    · simp only [trigger_alert]
      rw [findOne_append, hfind]
      simp [findOne, newKeywordAlert]
    · by_cases hA : existing.status = .active
      · rw [if_pos hA]
        simp only [update_existing_alert]
        rw [findOne_updateFirst]
        · rw [if_pos rfl, hfind]
          simp [hA]
        · intro b; rfl
      by_cases hR : existing.status = .resolved
      · rw [if_neg hA, if_pos hR]
        simp only [reactivate_alert]
        rw [findOne_updateFirst]
        · rw [if_pos rfl, hfind]
          simp
        · intro b; rfl
      · exfalso
        apply hsup existing hfind
        cases hstat : existing.status
        · exact absurd hstat hA
        · exact absurd hstat hR
        · rfl
  · intro h1
    unfold checkKeywordPair
    rw [if_pos hmatch, if_neg (by omega)]

/-- Witness for C5 at the sample rule (threshold 3): a tally of 2
causes no transition on the empty store. -/
theorem threshold_boundary_witness :
    checkKeywordPair 9 wRule ("数据") 2 ⟨[], []⟩ = ⟨[], []⟩ :=
  (threshold_boundary 9 wRule ("数据") ⟨[], []⟩ (by decide)
    (by intro a h; simp [findOne] at h)).2 (by decide)

/-! ### Idempotent re-evaluation (C6) -/

/-- C6.  Re-running the evaluation over unchanged data on an alert that
is already active rewrites only `message`, `triggered_at`,
`data.count` and `data.last_updated`; in particular the id of the record,
status and `data.reactivation_count` are unchanged.  The hypotheses
`hth`/`htw` say that the record was last written from this same rule,
which is exactly the situation of a repeated cycle over unchanged
data. -/
theorem idempotent_active_update (now : Nat) (rule : AlertRule) (keyword : String)
    (count : Nat) (st : SysState) (a : Alert)
    (hfind : findOne st.alerts (rule.id ++ "_" ++ keyword) = some a)
    (hact : a.status = .active)
    (hmatch : match_keyword keyword rule.keywords = true)
    (hcount : rule.threshold ≤ count)
    (hth : a.data.threshold = rule.threshold)
    (htw : a.data.time_window = rule.time_window) :
    findOne (checkKeywordPair now rule keyword count st).alerts
        (rule.id ++ "_" ++ keyword)
      = some
        { a with
          message := updateMessage count rule.threshold,
          triggered_at := now,
          data := { a.data with count := count, last_updated := some now } } := by
  unfold checkKeywordPair
  rw [if_pos hmatch, if_pos hcount]
  simp only [hfind]
  rw [if_pos hact]
  simp only [update_existing_alert]
  rw [findOne_updateFirst]
  · rw [if_pos rfl, hfind, hth, htw]
    rfl
  · intro b; rfl

/-- Witness for C6: re-evaluating the sample active alert keeps id,
status and reactivation count. -/
theorem idempotent_active_update_witness :
    findOne (checkKeywordPair 9 wRule ("数据") 5 ⟨[wActive], []⟩).alerts
        (wRule.id ++ "_" ++ "数据")
      = some
        { wActive with
          message := updateMessage 5 3,
          triggered_at := 9,
          data := { wActive.data with count := 5, last_updated := some 9 } } :=
  idempotent_active_update 9 wRule ("数据") 5 ⟨[wActive], []⟩ wActive
    (by decide) (by decide) (by decide) (by decide) (by decide) (by decide)

/-! ### Wildcard pattern semantics (C7) -/

/-- An exhausted pattern accepts (the regex match may end before the
text does). -/
theorem matchHere_nil (s : List Char) : matchHere [] s = true := by
  rw [matchHere.eq_def]

/-- Unfolding: a leading `*` either stands for the empty string or
absorbs one character. -/
theorem matchHere_star_cons_eq (p : List Char) (x : Char) (s : List Char) :
    matchHere ('*' :: p) (x :: s)
      = (matchHere p (x :: s) || matchHere ('*' :: p) s) := by
  rw [matchHere.eq_def]
  simp

/-- Unfolding: a leading `*` against the empty text defers to the rest
of the pattern. -/
theorem matchHere_star_nil (p : List Char) :
    matchHere ('*' :: p) [] = matchHere p [] := by
  rw [matchHere.eq_def]
  simp

/-- Unfolding: a literal pattern character consumes one matching text
character, case-insensitively. -/
theorem matchHere_lit_cons (c : Char) (p : List Char) (x : Char) (s : List Char)
    (hstar : ¬ c = '*') (hq : ¬ c = '?') :
    matchHere (c :: p) (x :: s)
      = ((c.toLower == x.toLower) && matchHere p s) := by
  rw [matchHere.eq_def]
  simp [hstar, hq]

/-- An anchored hit is in particular a search hit. -/
theorem searchMatch_of_matchHere (p s : List Char) (h : matchHere p s = true) :
    searchMatch p s = true := by
  cases s with
  | nil => exact h
  | cons x s' => simp [searchMatch, h]

/-- A search hit survives prepending a character. -/
theorem searchMatch_cons (p : List Char) (x : Char) (s : List Char)
    (h : searchMatch p s = true) : searchMatch p (x :: s) = true := by
  simp [searchMatch, h]

/-- A search hit survives prepending any prefix: `re.search` is not
anchored. -/
theorem searchMatch_append (p pre s : List Char) (h : searchMatch p s = true) :
    searchMatch p (pre ++ s) = true := by
  induction pre with
  | nil => exact h
  | cons x pre ih => exact searchMatch_cons p x _ ih

/-- A trailing `*` (translated `.*`) accepts anything. -/
theorem matchHere_star_any (s : List Char) : matchHere ['*'] s = true := by
  cases s with
  | nil => rw [matchHere_star_nil]; exact matchHere_nil []
  | cons x s' => rw [matchHere_star_cons_eq, matchHere_nil]; rfl

/-- A leading `*` absorbs one more character of text. -/
theorem matchHere_star_cons (p : List Char) (x : Char) (s : List Char)
    (h : matchHere ('*' :: p) s = true) : matchHere ('*' :: p) (x :: s) = true := by
  rw [matchHere_star_cons_eq, h]
  simp

/-- A leading `*` absorbs any prefix of the text. -/
theorem matchHere_star_append (p xs s : List Char) (h : matchHere p s = true) :
    matchHere ('*' :: p) (xs ++ s) = true := by
  induction xs with
  | nil =>
    cases s with
    | nil => rw [List.nil_append, matchHere_star_nil]; exact h
    | cons x s' => rw [List.nil_append, matchHere_star_cons_eq, h]; rfl
  | cons x xs ih => exact matchHere_star_cons p x _ ih

/-- Prefix hit on a pasted-together text. -/
theorem prefixMatch_append_self (n h : List Char) : prefixMatch n (n ++ h) = true := by
  induction n with
  | nil => rfl
  | cons c n ih => simp [prefixMatch, ih]

/-- A prefix hit is a containment hit. -/
theorem containsSub_of_prefixMatch (hay needle : List Char)
    (h : prefixMatch needle hay = true) : containsSub hay needle = true := by
  cases hay with
  | nil => exact h
  | cons d hs => simp [containsSub, h]

/-- Containment survives prepending a character. -/
theorem containsSub_cons (d : Char) (h needle : List Char)
    (hc : containsSub h needle = true) : containsSub (d :: h) needle = true := by
  simp [containsSub, hc]

/-- Containment survives prepending any prefix. -/
theorem containsSub_append (pre s needle : List Char)
    (h : containsSub s needle = true) : containsSub (pre ++ s) needle = true := by
  induction pre with
  | nil => exact h
  | cons d pre ih => exact containsSub_cons d _ _ ih

/-- The occurrence itself is contained. -/
theorem containsSub_middle (pre needle post : List Char) :
    containsSub (pre ++ (needle ++ post)) needle = true :=
  containsSub_append _ _ _
    (containsSub_of_prefixMatch _ _ (prefixMatch_append_self needle post))

/-- C7.  Wildcard patterns are translated (`*` to `.*`, `?` to `.`) and
searched case-insensitively and unanchored in the concatenated text,
and plain patterns are case-insensitive substring containment: pattern
`数据*` matches any text containing `数据泄露`, pattern `*泄露` matches
any text containing `数据泄露`, plain pattern `数据` matches any text
containing `数据`, and containment is case-insensitive (`data` matches
`DATA` in any position). -/
theorem wildcard_pattern_semantics :
    (∀ pre post : List Char,
      match_keyword_pattern ⟨pre ++ (("数据泄露").data ++ post)⟩ ("数据*") = true) ∧
    (∀ pre post : List Char,
      match_keyword_pattern ⟨pre ++ (("数据泄露").data ++ post)⟩ ("*泄露") = true) ∧
    (∀ pre post : List Char,
      match_keyword_pattern ⟨pre ++ (("数据").data ++ post)⟩ ("数据") = true) ∧
    (∀ pre post : List Char,
      match_keyword_pattern ⟨pre ++ (("DATA").data ++ post)⟩ ("data") = true) := by
  refine ⟨?_, ?_, ?_, ?_⟩
  · intro pre post
    unfold match_keyword_pattern
    rw [if_pos (by decide)]
    apply searchMatch_append
    apply searchMatch_of_matchHere
    show matchHere (('数') :: ('据') :: ['*'])
      (('数') :: ('据') :: (('泄') :: ('露') :: post)) = true
    rw [matchHere_lit_cons _ _ _ _ (by decide) (by decide),
      matchHere_lit_cons _ _ _ _ (by decide) (by decide), matchHere_star_any]
    decide
  · intro pre post
    unfold match_keyword_pattern
    rw [if_pos (by decide)]
    apply searchMatch_of_matchHere
    have key : matchHere (("*泄露").data)
        ((pre ++ [('数'), ('据')]) ++ ((('泄') :: ('露') :: []) ++ post)) = true := by
      apply matchHere_star_append
      show matchHere (('泄') :: ('露') :: []) (('泄') :: (('露') :: post)) = true
      rw [matchHere_lit_cons _ _ _ _ (by decide) (by decide),
        matchHere_lit_cons _ _ _ _ (by decide) (by decide), matchHere_nil]
      decide
    rw [List.append_assoc] at key
    exact key
  · intro pre post
    unfold match_keyword_pattern
    rw [if_neg (by decide)]
    show containsSub (lowerL (pre ++ (("数据").data ++ post)))
      (lowerL (("数据").data)) = true
    simp only [lowerL, List.map_append]
    have h2 : List.map Char.toLower (("数据").data) = ("数据").data := by decide
    rw [h2]
    exact containsSub_append _ _ _
      (containsSub_of_prefixMatch _ _ (prefixMatch_append_self _ _))
  · intro pre post
    unfold match_keyword_pattern
    rw [if_neg (by decide)]
    show containsSub (lowerL (pre ++ (("DATA").data ++ post)))
      (lowerL (("data").data)) = true
    simp only [lowerL, List.map_append]
    have h2 : List.map Char.toLower (("DATA").data) = ("data").data := by decide
    have h3 : List.map Char.toLower (("data").data) = ("data").data := by decide
    rw [h2, h3]
    exact containsSub_append _ _ _
      (containsSub_of_prefixMatch _ _ (prefixMatch_append_self _ _))

/-! ### Keyword extraction is greedy chunking, not n-grams (C8) -/

theorem findallCJKGo_fuel :
    ∀ (f1 f2 : Nat) (l : List Char), l.length ≤ f1 → l.length ≤ f2 →
      findallCJKGo f1 l = findallCJKGo f2 l := by
  intro f1
  induction f1 with
  | zero =>
    intro f2 l h1 h2
    have hl : l = [] := List.eq_nil_of_length_eq_zero (Nat.le_zero.mp h1)
    subst hl
    cases f2 <;> rfl
  | succ f1 ih =>
    intro f2 l h1 h2
    cases l with
    | nil => cases f2 <;> rfl
    | cons c s =>
      cases f2 with
      | zero => simp at h2
      | succ f2 =>
        simp only [List.length_cons] at h1 h2
        show (if isCJK c then _ else _) = (if isCJK c then _ else _)
        by_cases hc : isCJK c
        · rw [if_pos hc, if_pos hc]
          by_cases hm : (takeCJKUpTo 3 s).isEmpty
          · rw [if_pos hm, if_pos hm]
            exact ih f2 s (by omega) (by omega)
          · rw [if_neg hm, if_neg hm]
            have hd : (s.drop (takeCJKUpTo 3 s).length).length ≤ s.length := by
              simp [List.length_drop]
            rw [ih f2 _ (by omega) (by omega)]
        · rw [if_neg hc, if_neg hc]
          exact ih f2 s (by omega) (by omega)

theorem cjkRunsGo_fuel :
    ∀ (f1 f2 : Nat) (l : List Char), l.length ≤ f1 → l.length ≤ f2 →
      cjkRunsGo f1 l = cjkRunsGo f2 l := by
  intro f1
  induction f1 with
  | zero =>
    intro f2 l h1 h2
    have hl : l = [] := List.eq_nil_of_length_eq_zero (Nat.le_zero.mp h1)
    subst hl
    cases f2 <;> rfl
  | succ f1 ih =>
    intro f2 l h1 h2
    cases l with
    | nil => cases f2 <;> rfl
    | cons c s =>
      cases f2 with
      | zero => simp at h2
      | succ f2 =>
        simp only [List.length_cons] at h1 h2
        have hdw : (s.dropWhile isCJK).length ≤ s.length :=
          (List.dropWhile_sublist _).length_le
        show (if isCJK c then _ else _) = (if isCJK c then _ else _)
        by_cases hc : isCJK c
        · rw [if_pos hc, if_pos hc]
          rw [ih f2 _ (by omega) (by omega)]
        · rw [if_neg hc, if_neg hc]
          exact ih f2 s (by omega) (by omega)

theorem chunkGreedyGo_nil (fuel : Nat) : chunkGreedyGo fuel [] = [] := by
  cases fuel <;> rfl

theorem chunkGreedyGo_fuel :
    ∀ (f1 f2 : Nat) (r : List Char), r.length ≤ f1 → r.length ≤ f2 →
      chunkGreedyGo f1 r = chunkGreedyGo f2 r := by
  intro f1
  induction f1 with
  | zero =>
    intro f2 r h1 h2
    have hl : r = [] := List.eq_nil_of_length_eq_zero (Nat.le_zero.mp h1)
    subst hl
    rw [chunkGreedyGo_nil, chunkGreedyGo_nil]
  | succ f1 ih =>
    intro f2 r h1 h2
    cases r with
    | nil => rw [chunkGreedyGo_nil, chunkGreedyGo_nil]
    | cons c rr =>
      cases f2 with
      | zero => simp at h2
      | succ f2 =>
        simp only [List.length_cons] at h1 h2
        have hd : ((c :: rr).drop 4).length = rr.length + 1 - 4 := List.length_drop 4 _
        show (if 2 ≤ (c :: rr).length then _ else _)
          = (if 2 ≤ (c :: rr).length then _ else _)
        by_cases hr : 2 ≤ (c :: rr).length
        · rw [if_pos hr, if_pos hr]
          congr 1
          exact ih f2 _ (by omega) (by omega)
        · rw [if_neg hr, if_neg hr]

theorem cjkRuns_cons_pos (c : Char) (s : List Char) (hc : isCJK c = true) :
    cjkRuns (c :: s) = (c :: s.takeWhile isCJK) :: cjkRuns (s.dropWhile isCJK) := by
  show cjkRunsGo (c :: s).length (c :: s) = _
  rw [List.length_cons]
  show (if isCJK c then (c :: s.takeWhile isCJK) :: cjkRunsGo s.length (s.dropWhile isCJK)
      else cjkRunsGo s.length s) = _
  rw [if_pos hc]
  congr 1
  exact cjkRunsGo_fuel s.length _ _ (List.dropWhile_sublist _).length_le (Nat.le_refl _)

theorem cjkRuns_cons_neg (c : Char) (s : List Char) (hc : ¬ isCJK c = true) :
    cjkRuns (c :: s) = cjkRuns s := by
  show cjkRunsGo (c :: s).length (c :: s) = _
  rw [List.length_cons]
  show (if isCJK c then (c :: s.takeWhile isCJK) :: cjkRunsGo s.length (s.dropWhile isCJK)
      else cjkRunsGo s.length s) = _
  rw [if_neg hc]
  rfl

theorem chunkGreedy_eq (r : List Char) :
    chunkGreedy r = if 2 ≤ r.length then r.take 4 :: chunkGreedy (r.drop 4) else [] := by
  cases r with
  | nil => rfl
  | cons c rr =>
    show (if 2 ≤ (c :: rr).length then (c :: rr).take 4 :: chunkGreedyGo rr.length ((c :: rr).drop 4)
        else []) = _
    by_cases h2 : 2 ≤ (c :: rr).length
    · rw [if_pos h2, if_pos h2]
      congr 1
      exact chunkGreedyGo_fuel rr.length ((c :: rr).drop 4).length _
        (by simp [List.length_drop]) (Nat.le_refl _)
    · rw [if_neg h2, if_neg h2]

theorem takeCJKUpTo_eq (n : Nat) (s : List Char) :
    takeCJKUpTo n s = (s.takeWhile isCJK).take n := by
  induction n generalizing s with
  | zero => simp [takeCJKUpTo]
  | succ n ih =>
    cases s with
    | nil => simp [takeCJKUpTo]
    | cons c s =>
      by_cases hc : isCJK c
      · simp [takeCJKUpTo, hc, List.takeWhile_cons, ih]
      · simp [takeCJKUpTo, hc, List.takeWhile_cons]

/-- A maximal CJK run at the head of the text is one entry of
`cjkRuns`. -/
theorem cjkRuns_run_append (r rest : List Char) (hne : r ≠ [])
    (hall : ∀ c ∈ r, isCJK c = true)
    (hrest : ∀ d, rest.head? = some d → isCJK d = false) :
    cjkRuns (r ++ rest) = r :: cjkRuns rest := by
  cases r with
  | nil => exact absurd rfl hne
  | cons c r' =>
    have hc : isCJK c = true := hall c (List.mem_cons_self _ _)
    have hall' : ∀ x ∈ r', isCJK x = true := fun x hx => hall x (List.mem_cons_of_mem _ hx)
    have htw : rest.takeWhile isCJK = [] := by
      cases rest with
      | nil => rfl
      | cons d rest' =>
        have hd := hrest d rfl
        simp [List.takeWhile_cons, hd]
    have hdw : rest.dropWhile isCJK = rest := by
      cases rest with
      | nil => rfl
      | cons d rest' =>
        have hd := hrest d rfl
        simp [List.dropWhile_cons, hd]
    show cjkRuns (c :: (r' ++ rest)) = _
    rw [cjkRuns_cons_pos c _ hc, List.takeWhile_append_of_pos hall',
      List.dropWhile_append_of_pos hall', htw, hdw]
    simp

/-- The regex scan over any text produces, run by run, the greedy
chunks of each maximal CJK run. -/
theorem findallCJKGo_eq_chunks :
    ∀ (fuel : Nat) (l : List Char), l.length ≤ fuel →
      findallCJKGo fuel l = (cjkRuns l).flatMap chunkGreedy := by
  intro fuel
  induction fuel with
  | zero =>
    intro l h
    have hl : l = [] := List.eq_nil_of_length_eq_zero (Nat.le_zero.mp h)
    subst hl
    rfl
  | succ fuel ih =>
    intro l h
    cases l with
    | nil => rfl
    | cons c s =>
      simp only [List.length_cons] at h
      by_cases hc : isCJK c
      · by_cases hm : (takeCJKUpTo 3 s).isEmpty
        · -- a lone CJK character: no match at this position
          have htw0 : s.takeWhile isCJK = [] := by
            rw [List.isEmpty_iff, takeCJKUpTo_eq] at hm
            rcases List.take_eq_nil_iff.mp hm with h3 | h0
            · omega
            · exact h0
          have hdw : s.dropWhile isCJK = s := by
            have hx := List.takeWhile_append_dropWhile isCJK s
            rw [htw0] at hx
            simpa using hx
          rw [show findallCJKGo (fuel + 1) (c :: s)
              = findallCJKGo fuel s from by
            show (if isCJK c then _ else _) = _
            rw [if_pos hc, if_pos hm]]
          rw [ih s (by omega), cjkRuns_cons_pos c s hc, htw0, hdw]
          have hone : chunkGreedy [c] = [] := rfl
          simp [hone]
        · -- at least two CJK characters: one greedy chunk, then rescan
          have hm' : takeCJKUpTo 3 s ≠ [] := by
            simpa [List.isEmpty_iff] using hm
          rw [show findallCJKGo (fuel + 1) (c :: s)
              = (c :: takeCJKUpTo 3 s)
                  :: findallCJKGo fuel (s.drop (takeCJKUpTo 3 s).length) from by
            show (if isCJK c then _ else _) = _
            rw [if_pos hc, if_neg hm]]
          have hdl : (s.drop (takeCJKUpTo 3 s).length).length ≤ s.length := by
            simp [List.length_drop]
          rw [ih _ (by omega)]
          rw [cjkRuns_cons_pos c s hc]
          have hs : s.takeWhile isCJK ++ s.dropWhile isCJK = s :=
            List.takeWhile_append_dropWhile isCJK s
          have htwne : s.takeWhile isCJK ≠ [] := by
            intro h0
            apply hm'
            rw [takeCJKUpTo_eq, h0]
            rfl
          by_cases hlen : (s.takeWhile isCJK).length ≤ 3
          · -- the whole run fits into one chunk
            have hmtw : takeCJKUpTo 3 s = s.takeWhile isCJK := by
              rw [takeCJKUpTo_eq]
              exact List.take_of_length_le hlen
            have hdrop : s.drop (s.takeWhile isCJK).length = s.dropWhile isCJK := by
              nth_rewrite 2 [← hs]
              exact List.drop_left _ _
            rw [hmtw, hdrop]
            have hchunk : chunkGreedy (c :: s.takeWhile isCJK) = [c :: s.takeWhile isCJK] := by
              rw [chunkGreedy_eq, if_pos (by
                simp only [List.length_cons]
                have := List.length_pos.mpr htwne
                omega)]
              rw [List.take_of_length_le (by simp only [List.length_cons]; omega),
                List.drop_eq_nil_of_le (by simp only [List.length_cons]; omega)]
              rfl
            simp [hchunk]
          · -- the run is longer than one chunk: chunk and rescan agree
            have hmtake : takeCJKUpTo 3 s = (s.takeWhile isCJK).take 3 := takeCJKUpTo_eq 3 s
            have hlen3 : ((s.takeWhile isCJK).take 3).length = 3 := by
              rw [List.length_take]
              omega
            have hdrop3 : s.drop 3 = (s.takeWhile isCJK).drop 3 ++ s.dropWhile isCJK := by
              nth_rewrite 1 [← hs]
              exact List.drop_append_of_le_length (by omega)
            rw [hmtake, hlen3, hdrop3]
            have hdec : cjkRuns ((s.takeWhile isCJK).drop 3 ++ s.dropWhile isCJK)
                = ((s.takeWhile isCJK).drop 3) :: cjkRuns (s.dropWhile isCJK) := by
              apply cjkRuns_run_append
              · intro h0
                rw [List.drop_eq_nil_iff] at h0
                omega
              · intro x hx
                exact List.mem_takeWhile_imp (List.mem_of_mem_drop hx)
              · intro d hd
                have hhd := List.head?_dropWhile_not isCJK s
                rw [hd] at hhd
                exact hhd
            rw [hdec]
            have hchunk : chunkGreedy (c :: s.takeWhile isCJK)
                = (c :: (s.takeWhile isCJK).take 3)
                    :: chunkGreedy ((s.takeWhile isCJK).drop 3) := by
              rw [chunkGreedy_eq, if_pos (by simp only [List.length_cons]; omega)]
              rfl
            simp [hchunk]
      · rw [show findallCJKGo (fuel + 1) (c :: s) = findallCJKGo fuel s from by
          show (if isCJK c then _ else _) = _
          rw [if_neg hc]]
        rw [ih s (by omega), cjkRuns_cons_neg c s hc]

/-- The scan equals per-run greedy chunking. -/
theorem findallCJK_eq_chunks (l : List Char) :
    findallCJK l = (cjkRuns l).flatMap chunkGreedy :=
  findallCJKGo_eq_chunks l.length l (Nat.le_refl _)

/-- Counterexample to C8 as stated: the whole text `数据泄露事件` is one
contiguous CJK run, `据泄` is one of its length-2 substrings and is not
a stop word, yet the counter of the extractor gives it 0 occurrences — the
scan is greedy and non-overlapping, not a sliding window.  (The code in
fact returns exactly the chunks `数据泄露` and `事件`.) -/
theorem extract_keywords_not_ngrams :
    extract_keywords ("数据泄露事件") ("据泄") = 0 ∧
    List.IsInfix (("据泄").data) (("数据泄露事件").data) ∧
    (∀ c ∈ ("数据泄露事件").data, isCJK c = true) ∧
    ("据泄").length = 2 ∧
    stop_words.contains ("据泄") = false ∧
    extract_keywords ("数据泄露事件") ("数据泄露") = 1 ∧
    extract_keywords ("数据泄露事件") ("事件") = 1 := by
  refine ⟨by decide, ⟨("数").data, ("露事件").data, by decide⟩, by decide, by decide,
    by decide, by decide, by decide⟩

/-- C8 as amended.  For every input text: after the cleaning step, the
extractor takes from each contiguous CJK run the greedy non-overlapping
chunks of up to four characters (at least two per chunk, a trailing
single character being dropped) — not all overlapping substrings — plus
every Latin letter run of length at least 3, discards stop words and
short candidates, and counts occurrences. -/
theorem extract_keywords_greedy_chunks (text w : String) :
    extract_keywords text w = extractKeywordsAmended text w := by
  simp only [extract_keywords, extractKeywordsAmended, extractKeywordList,
    extractKeywordListAmended, findallCJK_eq_chunks]

/-! ### Time-window filtering (C9) -/

/-- Counterexample to C9 as stated: a document whose timestamp (5000)
lies after `now` (1000) — outside the claimed window from `now − W` to
`now` — is nevertheless tallied: the code only checks
`created_at >= now − W` and has no upper bound. -/
theorem window_filter_counterexample :
    alertKeywordCount 1000 60 [wDocFuture] ("数据") = 1 ∧
    wDocFuture.created_at = some 5000 ∧
    ¬ ((1000 : Int) - 60 ≤ 5000 ∧ (5000 : Int) ≤ 1000) := by
  exact ⟨by decide, rfl, by decide⟩

/-- C9 as amended.  The tally of a pattern counts exactly the documents that
pass the filter of the code — timestamp at least `now − W`, or no parseable
timestamp at all (no upper bound at `now`) — and match the pattern;
each such document contributes exactly 1, however many times the
pattern occurs in its text. -/
theorem window_filter_amended (now W : Int) (docs : List NewsDoc) (kw : String) :
    (alertKeywordCount now W docs kw
      = docs.countP
          (fun d => keepInWindow now W d && match_keyword_pattern (docText d) kw)) ∧
    (∀ d : NewsDoc,
      alertKeywordCount now W (docs ++ [d]) kw
        = alertKeywordCount now W docs kw
            + (if keepInWindow now W d && match_keyword_pattern (docText d) kw
                then 1 else 0)) := by
  constructor
  · unfold alertKeywordCount
    rw [List.filter_filter, ← List.countP_eq_length_filter]
    congr 1
    funext d
    rw [Bool.and_comm]
  · intro d
    unfold alertKeywordCount
    rw [List.filter_append]
    by_cases hk : keepInWindow now W d
    · by_cases hm : match_keyword_pattern (docText d) kw
      · simp [hk, hm]
      · simp [hk, hm]
    · simp [hk]

/-! ### Admin lookups and resolve results (C10) -/

/-- Updating an id that is absent from the store is a no-op. -/
theorem updateFirst_eq_of_none (i : String) (f : Alert → Alert) (l : List Alert)
    (h : findOne l i = none) : updateFirst i f l = l := by
  induction l with
  | nil => rfl
  | cons a l ih =>
    rw [findOne_eq_none_iff] at h
    have ha : ¬ (a.id == i) = true := by
      simp only [beq_iff_eq]
      exact h a (List.mem_cons_self _ _)
    show (if a.id == i then f a :: l else a :: updateFirst i f l) = a :: l
    rw [if_neg ha]
    congr 1
    apply ih
    rw [findOne_eq_none_iff]
    exact fun b hb => h b (List.mem_cons_of_mem a hb)

/-- Counterexample to C10 as stated: resolving a non-existent alert id
reports success (`True`) — `update_one` simply matches nothing and the
method returns `True` on every non-exceptional path, so not-found is
never distinguished. -/
theorem resolve_alert_counterexample :
    (resolve_alert 0 ("missing") ⟨[], []⟩).2 = true ∧
    findOne (⟨[], []⟩ : SysState).alerts ("missing") = none :=
  ⟨rfl, rfl⟩

/-- C10 as amended.  `get_alert_by_id` does distinguish: it returns the
record when the id exists and `None` exactly when it does not.
`resolve_alert`, however, returns success regardless of whether the id
exists — on a store without the id it changes nothing and still
reports `True`. -/
theorem admin_lookup_results (st : SysState) (alert_id : String) (now : Nat) :
    (get_alert_by_id st alert_id = none ↔ ∀ a ∈ st.alerts, a.id ≠ alert_id) ∧
    (∀ a, findOne st.alerts alert_id = some a → get_alert_by_id st alert_id = some a) ∧
    ((resolve_alert now alert_id st).2 = true) ∧
    (findOne st.alerts alert_id = none →
      (resolve_alert now alert_id st).1.alerts = st.alerts) := by
  refine ⟨findOne_eq_none_iff st.alerts alert_id, fun a h => h, rfl, ?_⟩
  intro h
  simp only [resolve_alert]
  exact updateFirst_eq_of_none _ _ _ h

/-- Witness for the amended behavior of C10: resolving an id that is not in
the store leaves the store unchanged while still reporting success. -/
theorem admin_lookup_results_witness :
    (resolve_alert 7 ("x") ⟨[wActive], []⟩).1.alerts = [wActive] :=
  (admin_lookup_results ⟨[wActive], []⟩ ("x") 7).2.2.2 (by decide)

end Yqjk
